import Mathlib

/-!
Verification of the GC core of this repository: a shallow embedding of
the Shenandoah old-generation state machine, the parallel compaction
manager's tagged scanner tasks, marking-stats cache, shadow-region pool,
and the CDS AOT class-initializer query, with theorems settling the
specification's claims about them.
-/

namespace ShenandoahOldGeneration

/-- The lifecycle states of the Shenandoah old generation, from
`enum State` in shenandoahOldGeneration.hpp. -/
inductive State where
  | IDLE
  | FILLING
  | BOOTSTRAPPING
  | MARKING
  | WAITING_FOR_EVAC
  | WAITING_FOR_FILL
deriving DecidableEq, Repr

open State

/-- `ShenandoahOldGeneration::can_start_gc()`:
`return _state == IDLE || _state == WAITING_FOR_FILL;`. -/
def can_start_gc (s : State) : Bool :=
  s == IDLE || s == WAITING_FOR_FILL

end ShenandoahOldGeneration

namespace ShenandoahOldGeneration

open State

/-- Modelled from the spec: the legal-transition table checked by
`ShenandoahOldGeneration::validate_transition` in debug builds; the
function body lives in shenandoahOldGeneration.cpp, which is not among
the available source files. Spec section 4.4: IDLE → FILLING |
BOOTSTRAPPING; FILLING → WAITING_FOR_FILL | MARKING; BOOTSTRAPPING →
MARKING; MARKING → WAITING_FOR_EVAC; WAITING_FOR_EVAC → IDLE or back to
MARKING on cancellation; WAITING_FOR_FILL → IDLE | FILLING. -/
def validate_transition : State → State → Bool
  | IDLE, FILLING => true
  | IDLE, BOOTSTRAPPING => true
  | FILLING, WAITING_FOR_FILL => true
  | FILLING, MARKING => true
  | BOOTSTRAPPING, MARKING => true
  | MARKING, WAITING_FOR_EVAC => true
  | WAITING_FOR_EVAC, IDLE => true
  | WAITING_FOR_EVAC, MARKING => true
  | WAITING_FOR_FILL, IDLE => true
  | WAITING_FOR_FILL, FILLING => true
  | _, _ => false

/-- Modelled from the spec: `ShenandoahOldGeneration::transition_to`
(body in shenandoahOldGeneration.cpp, not among the available source
files) moves the state machine to `new_state`, validating the move
against the legal-transition table; an illegal move trips the debug
assertion, modelled as `none`. -/
def transition_to (s new_state : State) : Option State :=
  if validate_transition s new_state then some new_state else none

/-- The referent properties of one SATB (sequential store buffer) record
that the purge filters on: whether it points into a trashed region and
whether it has already been marked. -/
structure SatbEntry where
  in_trashed_region : Bool
  already_marked : Bool
deriving DecidableEq, Repr

/-- Modelled from the spec:
`ShenandoahOldGeneration::transfer_pointers_from_satb` (body in
shenandoahOldGeneration.cpp, not among the available source files). Per
the header comment and spec section 4.4, during the final
update-references phase the SATB buffers are purged if and only if an
old-generation mark is in progress; purging drops records pointing into
trashed regions and records whose referents are already marked. -/
def transfer_pointers_from_satb (old_mark_in_progress : Bool)
    (buffer : List SatbEntry) : List SatbEntry :=
  if old_mark_in_progress then
    buffer.filter fun e => !e.in_trashed_region && !e.already_marked
  else
    buffer

end ShenandoahOldGeneration

namespace AOTClassInitializer

/-- The fields of `InstanceKlass` consulted by
`AOTClassInitializer::can_archive_initialized_mirror`: initialization
state, whether `java_super()` is `vmClasses::Enum_klass()`, and the
class name. -/
structure InstanceKlass where
  is_initialized : Bool
  super_is_enum : Bool
  name : String
deriving DecidableEq, Repr

/-- `AOTClassInitializer::can_archive_initialized_mirror(ik)` from
aotClassInitializer.cpp, with the result of
`CDSConfig::is_initing_classes_at_dump_time()` passed as a parameter. -/
def can_archive_initialized_mirror (is_initing_classes_at_dump_time : Bool)
    (ik : InstanceKlass) : Bool :=
  if !is_initing_classes_at_dump_time then
    false
  else if ik.is_initialized && ik.super_is_enum then
    true
  else if ik.is_initialized &&
      (ik.name == "jdk/internal/constant/PrimitiveClassDescImpl" ||
       ik.name == "jdk/internal/constant/ReferenceClassDescImpl" ||
       ik.name == "java/lang/constant/ConstantDescs") then
    true
  else
    false

end AOTClassInitializer

namespace ParallelGC

/-- HotSpot `is_aligned(p, alignment)`: `(p & (alignment - 1)) == 0`,
with addresses modelled as natural numbers. -/
def is_aligned (p alignment : Nat) : Bool :=
  (p &&& (alignment - 1)) == 0

/-- `PSScannerTask` from psCompactionManager.hpp: a single address-sized
`_holder` word; the low-order bit tags a PartialArrayState reference. -/
structure PSScannerTask where
  holder : Nat
deriving DecidableEq, Repr

namespace PSScannerTask

/-- `static const uintptr_t PartialArrayStateBit = 1;`. -/
def PartialArrayStateBit : Nat := 1

/-- `PSScannerTask(oop obj) : _holder(obj)`: stores the object address
unchanged. -/
def ofOop (obj : Nat) : PSScannerTask := ⟨obj⟩

/-- The debug-build assertion predicate of `PSScannerTask(oop)`:
`_holder != nullptr` and `is_aligned(_holder, 1)`, exactly as written in
the constructor. -/
def ofOopAssert (obj : Nat) : Bool :=
  (obj != 0) && is_aligned obj 1

/-- `PSScannerTask(PartialArrayState* p)`: stores
`(uintptr_t)p | PartialArrayStateBit`. -/
def ofPartialArrayState (p : Nat) : PSScannerTask :=
  ⟨p ||| PartialArrayStateBit⟩

/-- The debug-build assertion predicate of
`PSScannerTask(PartialArrayState*)`: `is_aligned(p, 1)`, exactly as
written in the constructor. -/
def ofPartialArrayStateAssert (p : Nat) : Bool :=
  is_aligned p 1

/-- `is_partial_array_state()`:
`((uintptr_t)_holder & PartialArrayStateBit) != 0`. -/
def isPartialArrayState (t : PSScannerTask) : Bool :=
  (t.holder &&& PartialArrayStateBit) != 0

/-- `is_oop()`: `!is_partial_array_state()`. -/
def is_oop (t : PSScannerTask) : Bool :=
  !t.isPartialArrayState

/-- `obj()`: asserts `is_oop()`, then returns `_holder` reinterpreted as an
oop. The assertion-failure branch is modelled as `none`. -/
def obj (t : PSScannerTask) : Option Nat :=
  if t.is_oop then some t.holder else none

/-- `to_partial_array_state()`: asserts `is_partial_array_state()`, then
returns `_holder - PartialArrayStateBit`. The assertion-failure branch is
modelled as `none`. -/
def toPartialArrayState (t : PSScannerTask) : Option Nat :=
  if t.isPartialArrayState then some (t.holder - PartialArrayStateBit) else none

end PSScannerTask

end ParallelGC

namespace ParallelGC

namespace ParCompactionManager

/-- `static const size_t InvalidShadow = ~0;`: all 64 bits of a `size_t`
set, the largest representable value. -/
def InvalidShadow : Nat := 2 ^ 64 - 1

/-- Modelled from the spec: `ParCompactionManager::pop_shadow_region_mt_safe`
(body in psCompactionManager.cpp, not among the available source files).
The shadow-region pool `_shadow_region_array` is a LIFO stack of free
region indices; pop removes the most recently pushed index, and pop on an
empty pool returns the sentinel `InvalidShadow` with the pool unchanged,
rather than blocking or failing. -/
def pop_shadow_region_mt_safe : List Nat → Nat × List Nat
  | [] => (InvalidShadow, [])
  | x :: rest => (x, rest)

/-- Modelled from the spec: `ParCompactionManager::push_shadow_region_mt_safe`
(body not among the available source files) returns a free region index
to the LIFO pool. -/
def push_shadow_region_mt_safe (pool : List Nat) (shadow_region : Nat) : List Nat :=
  shadow_region :: pool

/-- Modelled from the spec: `ParCompactionManager::remove_all_shadow_regions`
(body not among the available source files) drains the pool, returning
every staged index to the general free-region allocator. -/
def remove_all_shadow_regions (_pool : List Nat) : List Nat := []

/-- One operation on the shadow-region pool. -/
inductive ShadowOp where
  | pushOp (index : Nat)
  | popOp
  | removeAllOp
deriving DecidableEq, Repr

/-- Run a sequence of pool operations from a given pool state, using the
pool primitives, and return the final pool. -/
def runPool (pool : List Nat) : List ShadowOp → List Nat
  | [] => pool
  | ShadowOp.pushOp i :: rest => runPool (push_shadow_region_mt_safe pool i) rest
  | ShadowOp.popOp :: rest => runPool (pop_shadow_region_mt_safe pool).2 rest
  | ShadowOp.removeAllOp :: rest => runPool (remove_all_shadow_regions pool) rest

/-- The number of pushes in an operation sequence. -/
def countPushes : List ShadowOp → Nat
  | [] => 0
  | ShadowOp.pushOp _ :: rest => countPushes rest + 1
  | _ :: rest => countPushes rest

/-- The number of successful pops (pops of a nonempty pool) along the run
of an operation sequence. -/
def countPops (pool : List Nat) : List ShadowOp → Nat
  | [] => 0
  | ShadowOp.pushOp i :: rest => countPops (push_shadow_region_mt_safe pool i) rest
  | ShadowOp.popOp :: rest =>
      (if pool.isEmpty then 0 else 1) + countPops (pop_shadow_region_mt_safe pool).2 rest
  | ShadowOp.removeAllOp :: rest => countPops (remove_all_shadow_regions pool) rest

/-- The total number of indices drained by `remove_all_shadow_regions`
calls along the run of an operation sequence. -/
def countDrained (pool : List Nat) : List ShadowOp → Nat
  | [] => 0
  | ShadowOp.pushOp i :: rest => countDrained (push_shadow_region_mt_safe pool i) rest
  | ShadowOp.popOp :: rest => countDrained (pop_shadow_region_mt_safe pool).2 rest
  | ShadowOp.removeAllOp :: rest => pool.length + countDrained (remove_all_shadow_regions pool) rest

/-- Well-formed use of the pool, per the spec's ownership invariant: an
index is pushed only while not present in the pool (it is owned by the
pusher, not the pool). -/
def wfOps (pool : List Nat) : List ShadowOp → Bool
  | [] => true
  | ShadowOp.pushOp i :: rest =>
      !(decide (i ∈ pool)) && wfOps (push_shadow_region_mt_safe pool i) rest
  | ShadowOp.popOp :: rest => wfOps (pop_shadow_region_mt_safe pool).2 rest
  | ShadowOp.removeAllOp :: rest => wfOps (remove_all_shadow_regions pool) rest

end ParCompactionManager

end ParallelGC

namespace ParallelGC

namespace MarkingStatsCache

/-- `constexpr static size_t num_entries = 1024;` from the
`MarkingStatsCache` declaration in psCompactionManager.hpp. -/
def num_entries : Nat := 1024

/-- `constexpr static size_t entry_mask = num_entries - 1;`. -/
def entry_mask : Nat := num_entries - 1

/-- `struct CacheEntry { size_t region_id; size_t live_words; };`. -/
structure CacheEntry where
  region_id : Nat
  live_words : Nat
deriving DecidableEq, Repr

/-- The worker-local cache (`CacheEntry entries[num_entries] = {};`,
zero-initialized) together with the shared per-region live-word counters
that eviction flushes into. -/
structure Cache where
  entries : Nat → CacheEntry
  shared : Nat → Nat

/-- The zero-initialized cache next to all-zero shared counters. -/
def initCache : Cache := ⟨fun _ => ⟨0, 0⟩, fun _ => 0⟩

/-- The direct-mapped slot of a region: `region_id & entry_mask`
(i.e. `region_id mod num_entries`). -/
def slotOf (region_id : Nat) : Nat := region_id &&& entry_mask

/-- Modelled from the spec: `MarkingStatsCache::evict(index)` (body in
psCompactionManager.inline.hpp, not among the available source files)
flushes the count accumulated in the entry at `index` into the shared
per-region counter of the entry's region with an atomic add, and clears
the entry's count. -/
def evict (c : Cache) (index : Nat) : Cache :=
  { entries := fun j =>
      if j = index then ⟨(c.entries index).region_id, 0⟩ else c.entries j,
    shared := fun r =>
      if r = (c.entries index).region_id
        then c.shared r + (c.entries index).live_words
        else c.shared r }

/-- Modelled from the spec: `MarkingStatsCache::push(region_id, live_words)`
(body in psCompactionManager.inline.hpp, not among the available source
files) accumulates into the direct-mapped slot if it already holds this
region, else evicts the slot's current entry and replaces it. -/
def push (c : Cache) (region_id live_words : Nat) : Cache :=
  if (c.entries (slotOf region_id)).region_id = region_id then
    { entries := fun j =>
        if j = slotOf region_id then
          ⟨region_id, (c.entries (slotOf region_id)).live_words + live_words⟩
        else c.entries j,
      shared := c.shared }
  else
    { entries := fun j =>
        if j = slotOf region_id then ⟨region_id, live_words⟩
        else (evict c (slotOf region_id)).entries j,
      shared := (evict c (slotOf region_id)).shared }

/-- Modelled from the spec: `MarkingStatsCache::evict_all()` flushes every
slot at the end of a worker's marking phase. -/
def evict_all (c : Cache) : Cache :=
  (List.range num_entries).foldl evict c

/-- Apply a sequence of `(region_id, live_words)` pushes, first first. -/
def pushAll (c : Cache) : List (Nat × Nat) → Cache
  | [] => c
  | p :: rest => pushAll (push c p.1 p.2) rest

/-- The total live words pushed for region `r` in a push sequence. -/
def totalFor (ps : List (Nat × Nat)) (r : Nat) : Nat :=
  ((ps.filter fun p => p.1 == r).map Prod.snd).sum

/-- The live words for region `r` still parked in the cache: the contents
of `r`'s direct-mapped slot when that slot currently holds `r`. -/
def contrib (c : Cache) (r : Nat) : Nat :=
  if (c.entries (slotOf r)).region_id = r then (c.entries (slotOf r)).live_words else 0

/-- The cache invariant, relative to the intended per-region totals `T`:
a nonempty entry sits in its region's direct-mapped slot, and for every
region the flushed (shared) count plus the parked count is the total. -/
def InvHolds (c : Cache) (T : Nat → Nat) : Prop :=
  (∀ i, (c.entries i).live_words ≠ 0 → slotOf (c.entries i).region_id = i) ∧
  (∀ r, c.shared r + contrib c r = T r)

end MarkingStatsCache

end ParallelGC

namespace ParallelGC

/-- Setting the low bit of an even number is the same as adding one. -/
theorem even_lor_one (a : Nat) (h : a % 2 = 0) : a ||| 1 = a + 1 := by
  obtain ⟨k, rfl⟩ : ∃ k, a = 2 * k := ⟨a / 2, (Nat.div_mul_cancel (Nat.dvd_of_mod_eq_zero h)).symm.trans (Nat.mul_comm _ _)⟩
  have h1 : (2 * k) = Nat.bit false k := by simp [Nat.bit]
  have h2 : (1 : Nat) = Nat.bit true 0 := by simp [Nat.bit]
  rw [h1, h2, Nat.lor_bit]
  simp [Nat.bit]

namespace PSScannerTask

/-- The tag test reads exactly the low-order bit of the holder word. -/
theorem isPartialArrayState_eq_mod (t : PSScannerTask) :
    isPartialArrayState t = (t.holder % 2 == 1) := by
  simp only [isPartialArrayState, PartialArrayStateBit, Nat.and_one_is_mod]
  rcases Nat.mod_two_eq_zero_or_one t.holder with h | h <;> simp [h]

/-- Behaviour of all four members on a task built from a 2-byte-aligned
PartialArrayState address. -/
theorem ofPartialArrayState_spec (p : Nat) (hp : p % 2 = 0) :
    isPartialArrayState (ofPartialArrayState p) = true ∧
    is_oop (ofPartialArrayState p) = false ∧
    toPartialArrayState (ofPartialArrayState p) = some p ∧
    obj (ofPartialArrayState p) = none := by
  have hlor := even_lor_one p hp
  have h1 : isPartialArrayState (ofPartialArrayState p) = true := by
    rw [isPartialArrayState_eq_mod]
    simp [ofPartialArrayState, PartialArrayStateBit, hlor, Nat.add_mod, hp,
      Nat.succ_mod_two_eq_one_iff]
  refine ⟨h1, ?_, ?_, ?_⟩
  · rw [is_oop, h1]
    rfl
  · rw [toPartialArrayState, if_pos h1]
    simp [ofPartialArrayState, PartialArrayStateBit, hlor]
  · rw [PSScannerTask.obj, is_oop, h1]
    rfl

/-- Behaviour of all four members on a task built from a 2-byte-aligned
oop address. -/
theorem ofOop_spec (a : Nat) (ha : a % 2 = 0) :
    is_oop (ofOop a) = true ∧
    isPartialArrayState (ofOop a) = false ∧
    obj (ofOop a) = some a ∧
    toPartialArrayState (ofOop a) = none := by
  have h1 : isPartialArrayState (ofOop a) = false := by
    rw [isPartialArrayState_eq_mod]
    simp [ofOop, ha]
  refine ⟨?_, h1, ?_, ?_⟩
  · rw [is_oop, h1]
    rfl
  · rw [PSScannerTask.obj, is_oop, h1]
    rfl
  · simp [toPartialArrayState, h1]

end PSScannerTask

end ParallelGC

namespace ParallelGC

namespace ParCompactionManager

/-- Running an appended operation sequence runs the pieces in order. -/
theorem runPool_append (l1 l2 : List ShadowOp) (s : List Nat) :
    runPool s (l1 ++ l2) = runPool (runPool s l1) l2 := by
  induction l1 generalizing s with
  | nil => rfl
  | cons op rest ih =>
    cases op with
    | pushOp i => simp only [List.cons_append, runPool]; exact ih _
    | popOp => simp only [List.cons_append, runPool]; exact ih _
    | removeAllOp => simp only [List.cons_append, runPool]; exact ih _

/-- Conservation along a run: final pool size plus successful pops plus
drained indices equals the initial pool size plus pushes. -/
theorem shadow_pool_conservation (l : List ShadowOp) (s : List Nat) :
    (runPool s l).length + countPops s l + countDrained s l
      = s.length + countPushes l := by
  induction l generalizing s with
  | nil => simp [runPool, countPops, countDrained, countPushes]
  | cons op rest ih =>
    cases op with
    | pushOp i =>
      have h := ih (push_shadow_region_mt_safe s i)
      simp only [runPool, countPops, countDrained, countPushes,
        push_shadow_region_mt_safe, List.length_cons] at h ⊢
      omega
    | popOp =>
      cases s with
      | nil =>
        have h := ih []
        simp only [runPool, countPops, countDrained, countPushes,
          pop_shadow_region_mt_safe, List.isEmpty_nil, List.length_nil,
          if_true] at h ⊢
        omega
      | cons x t =>
        have h := ih t
        simp only [runPool, countPops, countDrained, countPushes,
          pop_shadow_region_mt_safe, List.isEmpty_cons, List.length_cons,
          Bool.false_eq_true, if_false] at h ⊢
        omega
    | removeAllOp =>
      have h := ih []
      simp only [runPool, countPops, countDrained, countPushes,
        remove_all_shadow_regions, List.length_nil] at h ⊢
      omega

/-- Well-formedness of an appended sequence splits. -/
theorem wfOps_append (l1 l2 : List ShadowOp) (s : List Nat)
    (h : wfOps s (l1 ++ l2) = true) :
    wfOps s l1 = true ∧ wfOps (runPool s l1) l2 = true := by
  induction l1 generalizing s with
  | nil => exact ⟨rfl, h⟩
  | cons op rest ih =>
    cases op with
    | pushOp i =>
      simp only [List.cons_append, wfOps, Bool.and_eq_true] at h ⊢
      rcases h with ⟨hc, h⟩
      rcases ih _ h with ⟨h1, h2⟩
      exact ⟨⟨hc, h1⟩, by simpa [runPool] using h2⟩
    | popOp =>
      simp only [List.cons_append, wfOps] at h ⊢
      rcases ih _ h with ⟨h1, h2⟩
      exact ⟨h1, by simpa [runPool] using h2⟩
    | removeAllOp =>
      simp only [List.cons_append, wfOps] at h ⊢
      rcases ih _ h with ⟨h1, h2⟩
      exact ⟨h1, by simpa [runPool] using h2⟩

/-- A well-formed run keeps the pool free of duplicate indices. -/
theorem runPool_nodup (l : List ShadowOp) (s : List Nat)
    (hwf : wfOps s l = true) (hnd : s.Nodup) : (runPool s l).Nodup := by
  induction l generalizing s with
  | nil => simpa [runPool] using hnd
  | cons op rest ih =>
    cases op with
    | pushOp i =>
      simp only [wfOps, Bool.and_eq_true, Bool.not_eq_true', decide_eq_false_iff_not] at hwf
      rcases hwf with ⟨hc, hwf⟩
      simp only [runPool]
      exact ih _ hwf (List.nodup_cons.mpr ⟨hc, hnd⟩)
    | popOp =>
      simp only [wfOps] at hwf
      simp only [runPool]
      cases s with
      | nil => exact ih _ hwf hnd
      | cons x t => exact ih _ hwf (List.Nodup.of_cons hnd)
    | removeAllOp =>
      simp only [wfOps] at hwf
      simp only [runPool, remove_all_shadow_regions]
      exact ih _ hwf List.nodup_nil

/-- An index absent from the pool stays absent until it is pushed. -/
theorem not_mem_runPool (l : List ShadowOp) (s : List Nat) (i : Nat)
    (hs : i ∉ s) (hl : ShadowOp.pushOp i ∉ l) : i ∉ runPool s l := by
  induction l generalizing s with
  | nil => simpa [runPool] using hs
  | cons op rest ih =>
    have hrest : ShadowOp.pushOp i ∉ rest := fun h => hl (List.mem_cons_of_mem _ h)
    cases op with
    | pushOp j =>
      have hji : j ≠ i := by
        intro e
        exact hl (by rw [e]; exact List.mem_cons_self _ _)
      simp only [runPool]
      refine ih _ ?_ hrest
      simp only [push_shadow_region_mt_safe, List.mem_cons]
      rintro (rfl | hm)
      · exact hji rfl
      · exact hs hm
    | popOp =>
      simp only [runPool]
      refine ih _ ?_ hrest
      cases s with
      | nil => simp [pop_shadow_region_mt_safe]
      | cons x t =>
        simp only [pop_shadow_region_mt_safe]
        exact fun hm => hs (List.mem_cons_of_mem _ hm)
    | removeAllOp =>
      simp only [runPool, remove_all_shadow_regions]
      exact ih _ (by simp) hrest

end ParCompactionManager

end ParallelGC

namespace ParallelGC

namespace MarkingStatsCache

/-- Every direct-mapped slot index is below the cache capacity. -/
theorem slotOf_lt (r : Nat) : slotOf r < num_entries :=
  Nat.lt_of_le_of_lt Nat.and_le_right (by norm_num [entry_mask, num_entries])

/-- Eviction moves a parked count into the shared counters; the
per-region sum of shared and parked counts is unchanged. -/
theorem evict_preserves (c : Cache) (T : Nat → Nat) (i : Nat)
    (h : InvHolds c T) : InvHolds (evict c i) T := by
  obtain ⟨h1, h2⟩ := h
  constructor
  · intro j hj
    by_cases hji : j = i
    · subst hji
      simp [evict] at hj
    · simp only [evict, if_neg hji] at hj ⊢
      exact h1 j hj
  · intro r
    have hc := h2 r
    by_cases hsr : slotOf r = i
    · have hcontrib : contrib (evict c i) r = 0 := by
        simp [contrib, evict, hsr]
      by_cases hrr : (c.entries i).region_id = r
      · have hshared : (evict c i).shared r = c.shared r + (c.entries i).live_words := by
          simp [evict, hrr]
        have hold : contrib c r = (c.entries i).live_words := by
          simp [contrib, hsr, hrr]
        rw [hshared, hcontrib]
        omega
      · have hshared : (evict c i).shared r = c.shared r := by
          simp [evict, Ne.symm hrr]
        have hold : contrib c r = 0 := by
          simp [contrib, hsr, hrr]
        rw [hshared, hcontrib]
        omega
    · have hcontrib : contrib (evict c i) r = contrib c r := by
        simp [contrib, evict, hsr]
      by_cases hreq : r = (c.entries i).region_id
      · have hlz : (c.entries i).live_words = 0 := by
          by_contra hne
          exact hsr (hreq ▸ h1 i hne)
        have hshared : (evict c i).shared r = c.shared r := by
          simp [evict, hreq, hlz]
        rw [hshared, hcontrib]
        omega
      · have hshared : (evict c i).shared r = c.shared r := by
          simp [evict, hreq]
        rw [hshared, hcontrib]
        omega

/-- Pushing `(rid, lw)` raises the intended total of region `rid` by `lw`
while keeping the invariant. -/
theorem push_adds (c : Cache) (T : Nat → Nat) (rid lw : Nat)
    (h : InvHolds c T) :
    InvHolds (push c rid lw) (fun r => if r = rid then T r + lw else T r) := by
  by_cases hm : (c.entries (slotOf rid)).region_id = rid
  · obtain ⟨h1, h2⟩ := h
    constructor
    · intro j hj
      by_cases hji : j = slotOf rid
      · subst hji
        simp [push, hm]
      · simp only [push, if_pos hm, if_neg hji] at hj ⊢
        exact h1 j hj
    · intro r
      have hc := h2 r
      have hshared : (push c rid lw).shared r = c.shared r := by
        simp [push, hm]
      show (push c rid lw).shared r + contrib (push c rid lw) r
          = if r = rid then T r + lw else T r
      by_cases hrr : r = rid
      · subst hrr
        have hcontrib : contrib (push c r lw) r
            = (c.entries (slotOf r)).live_words + lw := by
          simp [contrib, push, hm]
        have hold : contrib c r = (c.entries (slotOf r)).live_words := by
          simp [contrib, hm]
        rw [hshared, hcontrib, if_pos rfl]
        omega
      · by_cases hsr : slotOf r = slotOf rid
        · have hcontrib : contrib (push c rid lw) r = 0 := by
            simp [contrib, push, hm, hsr, Ne.symm hrr]
          have hold : contrib c r = 0 := by
            simp [contrib, hsr, hm, Ne.symm hrr]
          rw [hshared, hcontrib, if_neg hrr]
          omega
        · have hcontrib : contrib (push c rid lw) r = contrib c r := by
            simp [contrib, push, hm, hsr]
          rw [hshared, hcontrib, if_neg hrr]
          omega
  · have h' : InvHolds (evict c (slotOf rid)) T := evict_preserves c T _ h
    obtain ⟨h1, h2⟩ := h'
    constructor
    · intro j hj
      by_cases hji : j = slotOf rid
      · subst hji
        simp [push, hm]
      · simp only [push, if_neg hm, if_neg hji] at hj ⊢
        exact h1 j hj
    · intro r
      have hc := h2 r
      have hshared : (push c rid lw).shared r = (evict c (slotOf rid)).shared r := by
        simp [push, hm]
      show (push c rid lw).shared r + contrib (push c rid lw) r
          = if r = rid then T r + lw else T r
      by_cases hrr : r = rid
      · subst hrr
        have hzero : contrib (evict c (slotOf r)) r = 0 := by
          simp [contrib, evict]
        have hcontrib : contrib (push c r lw) r = lw := by
          simp [contrib, push, hm]
        rw [hshared, hcontrib, if_pos rfl]
        omega
      · by_cases hsr : slotOf r = slotOf rid
        · have hzero : contrib (evict c (slotOf rid)) r = 0 := by
            simp [contrib, evict, hsr]
          have hcontrib : contrib (push c rid lw) r = 0 := by
            simp [contrib, push, hm, hsr, Ne.symm hrr]
          rw [hshared, hcontrib, if_neg hrr]
          omega
        · have hcontrib : contrib (push c rid lw) r
              = contrib (evict c (slotOf rid)) r := by
            simp [contrib, push, hm, hsr]
          rw [hshared, hcontrib, if_neg hrr]
          omega

end MarkingStatsCache

end ParallelGC

namespace ParallelGC

namespace MarkingStatsCache

/-- Folding eviction over any list of slots keeps the invariant. -/
theorem foldl_evict_preserves (il : List Nat) (c : Cache) (T : Nat → Nat)
    (h : InvHolds c T) : InvHolds (il.foldl evict c) T := by
  induction il generalizing c with
  | nil => simpa using h
  | cons j rest ih => exact ih _ (evict_preserves _ _ _ h)

/-- Eviction never makes a cleared entry live again. -/
theorem evict_live_zero (c : Cache) (i j : Nat)
    (h : (c.entries i).live_words = 0) :
    ((evict c j).entries i).live_words = 0 := by
  by_cases hij : i = j
  · subst hij
    simp [evict]
  · simp [evict, hij, h]

/-- A cleared entry stays cleared under any sequence of evictions. -/
theorem foldl_evict_keeps_zero (il : List Nat) (c : Cache) (i : Nat)
    (h : (c.entries i).live_words = 0) :
    ((il.foldl evict c).entries i).live_words = 0 := by
  induction il generalizing c with
  | nil => simpa using h
  | cons j rest ih => exact ih _ (evict_live_zero _ _ _ h)

/-- After evicting every slot of a list, each listed slot is cleared. -/
theorem foldl_evict_zero_of_mem (il : List Nat) (c : Cache) (i : Nat)
    (h : i ∈ il) : ((il.foldl evict c).entries i).live_words = 0 := by
  induction il generalizing c with
  | nil => cases h
  | cons j rest ih =>
    rcases List.mem_cons.mp h with rfl | hmem
    · by_cases hr : i ∈ rest
      · exact ih _ hr
      · exact foldl_evict_keeps_zero rest (evict c i) i (by simp [evict])
    · exact ih _ hmem

/-- Splitting a push total at the head of the sequence. -/
theorem totalFor_cons (p : Nat × Nat) (ps : List (Nat × Nat)) (r : Nat) :
    totalFor (p :: ps) r = (if p.1 = r then p.2 else 0) + totalFor ps r := by
  by_cases h : p.1 = r <;> simp [totalFor, List.filter_cons, h]

/-- The invariant respects pointwise-equal totals. -/
theorem InvHolds_congr (c : Cache) (T U : Nat → Nat) (h : InvHolds c T)
    (he : ∀ r, T r = U r) : InvHolds c U :=
  ⟨h.1, fun r => (h.2 r).trans (he r)⟩

/-- A push sequence raises the intended totals by its per-region sums. -/
theorem pushAll_adds (ps : List (Nat × Nat)) (c : Cache) (T : Nat → Nat)
    (h : InvHolds c T) :
    InvHolds (pushAll c ps) (fun r => T r + totalFor ps r) := by
  induction ps generalizing c T with
  | nil => exact InvHolds_congr _ _ _ h (by simp [totalFor])
  | cons p rest ih =>
    have h1 := push_adds c T p.1 p.2 h
    have h2 := ih _ _ h1
    refine InvHolds_congr _ _ _ h2 ?_
    intro r
    rw [totalFor_cons]
    by_cases hr : r = p.1
    · subst hr
      rw [if_pos rfl, if_pos rfl]
      omega
    · rw [if_neg hr, if_neg (Ne.symm hr)]
      omega

/-- The zero-initialized cache satisfies the invariant for zero totals. -/
theorem initCache_inv : InvHolds initCache (fun _ => 0) := by
  constructor
  · intro i hi
    simp [initCache] at hi
  · intro r
    simp [initCache, contrib]

end MarkingStatsCache

end ParallelGC

open ShenandoahOldGeneration in
/-- Claim C1: for every state of the old-generation state machine,
`can_start_gc()` returns true if and only if the state is IDLE or
WAITING_FOR_FILL; in all other states it returns false. -/
theorem can_start_gc_iff (s : State) :
    can_start_gc s = true ↔ (s = State.IDLE ∨ s = State.WAITING_FOR_FILL) := by
  cases s <;> simp [can_start_gc]

open ParallelGC ParallelGC.PSScannerTask in
/-- Claim C2: building a task from a 2-byte-aligned PartialArrayState
address yields `is_partial_array_state() = true`, `is_oop() = false`, and
`to_partial_array_state()` recovers the address; building a task from a
non-null 2-byte-aligned oop address yields `is_oop() = true`,
`is_partial_array_state() = false`, and `obj()` recovers the address; the
discrimination is decided solely by the low-order bit of the stored
holder word. -/
theorem psScannerTask_tagging (a : Nat) (h2 : a % 2 = 0) :
    (isPartialArrayState (ofPartialArrayState a) = true ∧
     is_oop (ofPartialArrayState a) = false ∧
     toPartialArrayState (ofPartialArrayState a) = some a) ∧
    (a ≠ 0 →
     is_oop (ofOop a) = true ∧
     isPartialArrayState (ofOop a) = false ∧
     obj (ofOop a) = some a) ∧
    (∀ t : PSScannerTask, isPartialArrayState t = (t.holder % 2 == 1)) := by
  obtain ⟨hp1, hp2, hp3, -⟩ := ofPartialArrayState_spec a h2
  obtain ⟨ho1, ho2, ho3, -⟩ := ofOop_spec a h2
  exact ⟨⟨hp1, hp2, hp3⟩, fun _ => ⟨ho1, ho2, ho3⟩, isPartialArrayState_eq_mod⟩

/-- Witness for C2 at the concrete even address 4. -/
theorem psScannerTask_tagging_witness :
    (4 % 2 = 0) ∧ ((4 : Nat) ≠ 0) ∧
    (ParallelGC.PSScannerTask.isPartialArrayState (ParallelGC.PSScannerTask.ofPartialArrayState 4) = true ∧
     ParallelGC.PSScannerTask.obj (ParallelGC.PSScannerTask.ofOop 4) = some 4) :=
  ⟨by decide, by decide,
   ⟨(psScannerTask_tagging 4 (by decide)).1.1,
    ((psScannerTask_tagging 4 (by decide)).2.1 (by decide)).2.2⟩⟩

/-- Claim C4 evaluation: the constructor assertions check
`is_aligned(·, 1)`, which holds even for the odd (not 2-byte-aligned)
address 3, and an oop task built from address 3 is then misclassified as

is not what the assertions enforce. -/
theorem psScannerTask_ctor_assert_vacuous :
    ParallelGC.PSScannerTask.ofOopAssert 3 = true ∧
    ParallelGC.PSScannerTask.ofPartialArrayStateAssert 3 = true ∧
    3 % 2 ≠ 0 ∧
    ParallelGC.PSScannerTask.isPartialArrayState (ParallelGC.PSScannerTask.ofOop 3) = true := by
  decide

open ParallelGC ParallelGC.PSScannerTask in
/-- Claim C5: each accessor checks that the tag matches the requested
interpretation: on a task holding the matching variant the
assertion-failure branch is unreachable (the accessor returns its value),
and the accessor of the wrong variant trips the assertion (modelled as
`none`) rather than returning a value. -/
theorem psScannerTask_accessor_tag_check (a p : Nat)
    (ha : a % 2 = 0) (hp : p % 2 = 0) :
    (obj (ofOop a) = some a ∧ toPartialArrayState (ofOop a) = none) ∧
    (toPartialArrayState (ofPartialArrayState p) = some p ∧
     obj (ofPartialArrayState p) = none) := by
  obtain ⟨-, -, ho3, ho4⟩ := ofOop_spec a ha
  obtain ⟨-, -, hp3, hp4⟩ := ofPartialArrayState_spec p hp
  exact ⟨⟨ho3, ho4⟩, hp3, hp4⟩

/-- Witness for C5 at the concrete even addresses 4 and 6. -/
theorem psScannerTask_accessor_tag_check_witness :
    (4 % 2 = 0) ∧ (6 % 2 = 0) ∧
    (ParallelGC.PSScannerTask.obj (ParallelGC.PSScannerTask.ofOop 4) = some 4 ∧
     ParallelGC.PSScannerTask.toPartialArrayState (ParallelGC.PSScannerTask.ofPartialArrayState 6) = some 6) :=
  ⟨by decide, by decide,
   ⟨(psScannerTask_accessor_tag_check 4 6 (by decide) (by decide)).1.1,
    (psScannerTask_accessor_tag_check 4 6 (by decide) (by decide)).2.1⟩⟩

open ShenandoahOldGeneration in
open ShenandoahOldGeneration.State in
/-- Claim C6: a transition performed by `transition_to` succeeds exactly
when `validate_transition` accepts it, and `validate_transition` accepts
exactly the pairs of the legal-transition table: IDLE to FILLING or
BOOTSTRAPPING, FILLING to WAITING_FOR_FILL or MARKING, BOOTSTRAPPING to
MARKING, MARKING to WAITING_FOR_EVAC, WAITING_FOR_EVAC to IDLE or back to
MARKING on cancellation, WAITING_FOR_FILL to IDLE or FILLING; every other
transition is rejected. -/
theorem transition_to_follows_table (s t : State) :
    (transition_to s t = some t ↔ validate_transition s t = true) ∧
    (transition_to s t = none ↔ validate_transition s t = false) ∧
    (validate_transition s t = true ↔
      ((s = IDLE ∧ (t = FILLING ∨ t = BOOTSTRAPPING)) ∨
       (s = FILLING ∧ (t = WAITING_FOR_FILL ∨ t = MARKING)) ∨
       (s = BOOTSTRAPPING ∧ t = MARKING) ∨
       (s = MARKING ∧ t = WAITING_FOR_EVAC) ∨
       (s = WAITING_FOR_EVAC ∧ (t = IDLE ∨ t = MARKING)) ∨
       (s = WAITING_FOR_FILL ∧ (t = IDLE ∨ t = FILLING)))) := by
  cases s <;> cases t <;> simp [transition_to, validate_transition]

open ParallelGC.ParCompactionManager in
/-- Claim C7: popping an empty shadow-region pool returns the sentinel
`InvalidShadow` (all bits of a size_t set) with the pool unchanged,
rather than blocking or failing; and any valid shadow region index — an
index below a representable region count — is distinct from the
sentinel. -/
theorem pop_shadow_region_empty_sentinel (region_count idx : Nat)
    (hidx : idx < region_count) (hcount : region_count ≤ InvalidShadow) :
    pop_shadow_region_mt_safe [] = (InvalidShadow, []) ∧ idx ≠ InvalidShadow :=
  ⟨rfl, Nat.ne_of_lt (Nat.lt_of_lt_of_le hidx hcount)⟩

/-- Witness for C7 with a heap of 8 regions and index 5. -/
theorem pop_shadow_region_empty_sentinel_witness :
    5 < 8 ∧ 8 ≤ ParallelGC.ParCompactionManager.InvalidShadow ∧
    (ParallelGC.ParCompactionManager.pop_shadow_region_mt_safe [] =
       (ParallelGC.ParCompactionManager.InvalidShadow, []) ∧
     (5 : Nat) ≠ ParallelGC.ParCompactionManager.InvalidShadow) :=
  ⟨by decide, by norm_num [ParallelGC.ParCompactionManager.InvalidShadow],
   pop_shadow_region_empty_sentinel 8 5 (by decide)
     (by norm_num [ParallelGC.ParCompactionManager.InvalidShadow])⟩

open ParallelGC.ParCompactionManager in
/-- Claim C8: for every operation sequence on the shadow-region pool
starting from the empty pool, the number of free indices finally held
equals pushes minus successful pops minus drained indices; and under the
spec's ownership discipline (an index is pushed only while absent from
the pool), an index returned by two pops must have been pushed again
in between. -/
theorem shadow_pool_counting_and_unique_pop
    (l l1 l2 l3 : List ShadowOp) (i : Nat) (t1 t2 : List Nat) :
    (countPushes l - countPops [] l - countDrained [] l
       = (runPool [] l).length) ∧
    (wfOps [] (l1 ++ (ShadowOp.popOp :: (l2 ++ (ShadowOp.popOp :: l3)))) = true →
     runPool [] l1 = i :: t1 →
     runPool [] (l1 ++ (ShadowOp.popOp :: l2)) = i :: t2 →
     ShadowOp.pushOp i ∈ l2) := by
  constructor
  · have h := shadow_pool_conservation l []
    simp only [List.length_nil, Nat.zero_add] at h
    omega
  · intro hwf h1 h2
    rcases wfOps_append l1 (ShadowOp.popOp :: (l2 ++ (ShadowOp.popOp :: l3))) [] hwf
      with ⟨hwf1, hwf2⟩
    rw [h1] at hwf2
    have hwf2' : wfOps t1 (l2 ++ (ShadowOp.popOp :: l3)) = true := by
      simpa [wfOps, pop_shadow_region_mt_safe] using hwf2
    have hnd : (runPool [] l1).Nodup := runPool_nodup l1 [] hwf1 List.nodup_nil
    rw [h1] at hnd
    have hin : i ∉ t1 := (List.nodup_cons.mp hnd).1
    have hrun2 : runPool t1 l2 = i :: t2 := by
      rw [runPool_append] at h2
      rw [h1] at h2
      simpa [runPool, pop_shadow_region_mt_safe] using h2
    by_cases hm : ShadowOp.pushOp i ∈ l2
    · exact hm
    · exfalso
      have habs := not_mem_runPool l2 t1 i hin hm
      rw [hrun2] at habs
      exact habs (List.mem_cons_self _ _)

open ParallelGC.ParCompactionManager in
/-- Witness for C8 on the concrete sequence push 5, pop, push 5, pop:
the second pop of index 5 is legitimised by the intervening push. -/
theorem shadow_pool_counting_and_unique_pop_witness :
    (wfOps [] ([ShadowOp.pushOp 5] ++
        (ShadowOp.popOp :: ([ShadowOp.pushOp 5] ++ (ShadowOp.popOp :: [])))) = true) ∧
    (runPool [] [ShadowOp.pushOp 5] = 5 :: []) ∧
    (runPool [] ([ShadowOp.pushOp 5] ++ (ShadowOp.popOp :: [ShadowOp.pushOp 5]))
        = 5 :: []) ∧
    (countPushes [ShadowOp.pushOp 5, ShadowOp.popOp]
       - countPops [] [ShadowOp.pushOp 5, ShadowOp.popOp]
       - countDrained [] [ShadowOp.pushOp 5, ShadowOp.popOp]
       = (runPool [] [ShadowOp.pushOp 5, ShadowOp.popOp]).length) ∧
    ShadowOp.pushOp 5 ∈ [ShadowOp.pushOp 5] :=
  ⟨by decide, by decide, by decide,
   (shadow_pool_counting_and_unique_pop [ShadowOp.pushOp 5, ShadowOp.popOp]
      [ShadowOp.pushOp 5] [ShadowOp.pushOp 5] [] 5 [] []).1,
   (shadow_pool_counting_and_unique_pop [ShadowOp.pushOp 5, ShadowOp.popOp]
      [ShadowOp.pushOp 5] [ShadowOp.pushOp 5] [] 5 [] []).2
     (by decide) (by decide) (by decide)⟩

open ShenandoahOldGeneration in
/-- Claim C9: with an old-generation mark in progress, the SATB purge
keeps a record exactly when it neither points into a trashed region nor
has an already-marked referent — so no stale record survives into the
next cycle's marking; with no old-generation mark in progress the buffer
is left untouched (no purge happens). -/
theorem transfer_pointers_from_satb_purges (buffer : List SatbEntry) :
    (∀ e ∈ transfer_pointers_from_satb true buffer,
       e.in_trashed_region = false ∧ e.already_marked = false) ∧
    (∀ e ∈ buffer, e.in_trashed_region = false → e.already_marked = false →
       e ∈ transfer_pointers_from_satb true buffer) ∧
    transfer_pointers_from_satb false buffer = buffer := by
  refine ⟨?_, ?_, rfl⟩
  · intro e he
    simp only [transfer_pointers_from_satb, if_pos, List.mem_filter,
      Bool.and_eq_true, Bool.not_eq_true'] at he
    exact ⟨he.2.1, he.2.2⟩
  · intro e he h1 h2
    simp only [transfer_pointers_from_satb, if_pos, List.mem_filter,
      Bool.and_eq_true, Bool.not_eq_true']
    exact ⟨he, h1, h2⟩

/-- Witness for C9 on a concrete two-record buffer: the clean record
survives the purge. -/
theorem transfer_pointers_from_satb_purges_witness :
    ((⟨false, false⟩ : ShenandoahOldGeneration.SatbEntry) ∈
       [(⟨true, false⟩ : ShenandoahOldGeneration.SatbEntry), ⟨false, false⟩]) ∧
    (⟨false, false⟩ : ShenandoahOldGeneration.SatbEntry) ∈
      ShenandoahOldGeneration.transfer_pointers_from_satb true
        [(⟨true, false⟩ : ShenandoahOldGeneration.SatbEntry), ⟨false, false⟩] :=
  ⟨by decide,
   (transfer_pointers_from_satb_purges
       [(⟨true, false⟩ : ShenandoahOldGeneration.SatbEntry), ⟨false, false⟩]).2.1
     ⟨false, false⟩ (by decide) rfl rfl⟩

open AOTClassInitializer in
/-- Claim C10: `can_archive_initialized_mirror` returns true exactly when
class initialization at dump time is enabled, the class is initialized,
and either its direct superclass is `java.lang.Enum` or its name is one
of the three listed constant-descriptor classes; in particular it never
returns true for an uninitialized class. -/
theorem can_archive_initialized_mirror_iff (b : Bool) (ik : InstanceKlass) :
    (can_archive_initialized_mirror b ik = true ↔
      (b = true ∧ ik.is_initialized = true ∧
        (ik.super_is_enum = true ∨
         ik.name = "jdk/internal/constant/PrimitiveClassDescImpl" ∨
         ik.name = "jdk/internal/constant/ReferenceClassDescImpl" ∨
         ik.name = "java/lang/constant/ConstantDescs"))) ∧
    (ik.is_initialized = false → can_archive_initialized_mirror b ik = false) := by
  rcases ik with ⟨init, se, nm⟩
  cases b <;> cases init <;> cases se <;>
    simp [can_archive_initialized_mirror, or_assoc]

/-- Witness for C10: a non-initialized Enum subclass is rejected. -/
theorem can_archive_initialized_mirror_iff_witness :
    ((⟨false, true, "p/Q"⟩ : AOTClassInitializer.InstanceKlass).is_initialized = false) ∧
    AOTClassInitializer.can_archive_initialized_mirror true ⟨false, true, "p/Q"⟩ = false :=
  ⟨rfl, (can_archive_initialized_mirror_iff true ⟨false, true, "p/Q"⟩).2 rfl⟩

open ParallelGC.MarkingStatsCache in
/-- Claim C3: pushing any sequence of `(region_id, live_words)` pairs into
the zero-initialized marking-stats cache — with arbitrary direct-mapped
slot collisions — and then evicting every slot yields, for each region,
a shared total equal to the sum of all live words pushed for that region;
and the same holds for any eviction order that covers every slot, so the
result does not depend on the order of eviction. -/
theorem markingStatsCache_evict_all_totals (ps : List (Nat × Nat)) (r : Nat) :
    ((evict_all (pushAll initCache ps)).shared r = totalFor ps r) ∧
    (∀ il : List Nat, (∀ j, j < num_entries → j ∈ il) →
      (il.foldl evict (pushAll initCache ps)).shared r = totalFor ps r) := by
  have hgen : ∀ il : List Nat, (∀ j, j < num_entries → j ∈ il) →
      (il.foldl evict (pushAll initCache ps)).shared r = totalFor ps r := by
    intro il hcov
    have h0 := pushAll_adds ps initCache (fun _ => 0) initCache_inv
    have h1 : InvHolds (il.foldl evict (pushAll initCache ps))
        (fun s => 0 + totalFor ps s) := foldl_evict_preserves il _ _ h0
    have h2 : (il.foldl evict (pushAll initCache ps)).shared r
        + contrib (il.foldl evict (pushAll initCache ps)) r
        = 0 + totalFor ps r := h1.2 r
    have hlz : ((il.foldl evict (pushAll initCache ps)).entries (slotOf r)).live_words = 0 :=
      foldl_evict_zero_of_mem il _ _ (hcov _ (slotOf_lt r))
    have hz : contrib (il.foldl evict (pushAll initCache ps)) r = 0 := by
      simp [contrib, hlz]
    rw [hz] at h2
    omega
  refine ⟨?_, hgen⟩
  unfold evict_all
  exact hgen (List.range num_entries) (fun j hj => List.mem_range.mpr hj)

open ParallelGC.MarkingStatsCache in
/-- Witness for C3: a concrete collision-heavy sequence (regions 0 and
1024 share slot 0) flushed in reverse slot order. -/
theorem markingStatsCache_evict_all_totals_witness :
    (∀ j, j < num_entries → j ∈ (List.range num_entries).reverse) ∧
    ((List.range num_entries).reverse.foldl evict
        (pushAll initCache [(0, 10), (1024, 7), (0, 5)])).shared 0
      = totalFor [(0, 10), (1024, 7), (0, 5)] 0 :=
  ⟨fun _ hj => List.mem_reverse.mpr (List.mem_range.mpr hj),
   (markingStatsCache_evict_all_totals [(0, 10), (1024, 7), (0, 5)] 0).2
     (List.range num_entries).reverse
     (fun _ hj => List.mem_reverse.mpr (List.mem_range.mpr hj))⟩
